import Mathlib

/-!
Verification of the core engine of `morning-mosaic` (src/app.js): the
guess-evaluation algorithm (`evaluateGuess`), the deterministic daily word
selection (`dailyIndex`, `pickWord`), and the keyboard-hint aggregation
(`computeStatuses`).

Embedding conventions:
- JS strings are modelled as `List Char` (`String.data` on wrappers); the
  word lists in play are BMP Latin/Cyrillic, where one UTF-16 code unit is
  one code point, so `charCodeAt` is `Char.toNat`.
- JS numbers are modelled as `Int`/`Nat` with explicit `% 2 ^ 32` where the
  source truncates with `>>> 0`. The integers reached by the source
  (day numbers times LCG constants) are well below `2 ^ 53`, where JS
  doubles are exact.
- The `counts` object of `evaluateGuess` is modelled as a total function
  `Char → Int`; a key missing from the JS object reads as `undefined`,
  and the only reads the source does on it (`counts[g] > 0`, on a missing
  key `undefined > 0 = false`) agree with the model value `0`.
-/

namespace GuessMosaic

/-- Per-tile status returned by `evaluateGuess` in src/app.js
(`'correct' | 'present' | 'absent'`). -/
inductive Status where
  | correct
  | present
  | absent
deriving DecidableEq, Repr

/-- The `counts` loop of `evaluateGuess` (src/app.js lines 88-92):
`for i in [0, target.length): counts[target[i]] = (counts[target[i]] || 0) + 1`. -/
def buildCounts (target : List Char) : Char → Int :=
  target.foldl (fun m ch => fun c => if c = ch then m c + 1 else m c) (fun _ => 0)

/-- First pass of `evaluateGuess` (src/app.js lines 93-99): walk positions left
to right; where `guess[i] === target[i]` mark `correct` and decrement
`counts[guess[i]]`; every other position keeps the fill value `'absent'`.
A guess shorter than the target reads `guess[i] = undefined`, which never
equals a target character. Returns the status array and the updated counts. -/
def firstPass : List Char → List Char → (Char → Int) → List Status × (Char → Int)
  | _, [], counts => ([], counts)
  | [], _ :: ts, counts =>
    let rest := firstPass [] ts counts
    (Status.absent :: rest.1, rest.2)
  | gc :: gs, tc :: ts, counts =>
    if gc = tc then
      let rest := firstPass gs ts (fun c => if c = gc then counts c - 1 else counts c)
      (Status.correct :: rest.1, rest.2)
    else
      let rest := firstPass gs ts counts
      (Status.absent :: rest.1, rest.2)

/-- Second pass of `evaluateGuess` (src/app.js lines 100-108): skip positions
already `correct`; otherwise if `counts[guess[i]] > 0` mark `present` and
decrement, else leave the fill value. When `guess[i]` is `undefined`
(guess exhausted), `counts[undefined] > 0` is false and the status stays. -/
def secondPass : List Status → List Char → (Char → Int) → List Status
  | [], _, _ => []
  | st :: sts, [], counts => st :: secondPass sts [] counts
  | Status.correct :: sts, _ :: gs, counts => Status.correct :: secondPass sts gs counts
  | st :: sts, gc :: gs, counts =>
    if counts gc > 0 then
      Status.present :: secondPass sts gs (fun c => if c = gc then counts c - 1 else counts c)
    else
      st :: secondPass sts gs counts

/-- `evaluateGuess` from src/app.js lines 85-110: the two-pass Wordle-style
scoring of `guess` against `target` with duplicate handling. -/
def evaluateGuess (guess target : List Char) : List Status :=
  let counts := buildCounts target
  let pass1 := firstPass guess target counts
  secondPass pass1.1 guess pass1.2

/-- String-level wrapper of `evaluateGuess` for concrete test vectors. -/
def evaluateGuessS (guess target : String) : List Status :=
  evaluateGuess guess.data target.data

/-! ### Daily selection (src/app.js lines 56-75) -/

/-- `Date.UTC(2025, 0, 1) / 86400000`: days from 1970-01-01 to 2025-01-01
(55 years, 14 of them leap). -/
def epochDay : Int := 20089

/-- `dayNumber` of src/app.js lines 58-60: `Math.floor(Date.now()/86400000 - epoch)`.
As exact rationals `now/86400000 - epochDay = (now - epochDay*86400000)/86400000`,
so the floor is the floor division `Int.fdiv`. -/
def dayNumber (nowMs : Int) : Int :=
  (nowMs - epochDay * 86400000).fdiv 86400000

/-- The language-tag hash of src/app.js line 62:
`h = 0; for each char: h = (h * 31 + charCode) >>> 0`. -/
def langHash (lang : List Char) : Nat :=
  lang.foldl (fun h c => (h * 31 + c.toNat) % 4294967296) 0

/-- The LCG mix of src/app.js line 63:
`(dayNumber * 1103515245 + 12345 + h) >>> 0`; `>>> 0` of an exact integer is
its non-negative residue mod `2 ^ 32`, i.e. `Int.emod`. -/
def lcgMix (d : Int) (h : Nat) : Nat :=
  ((d * 1103515245 + 12345 + (h : Int)).emod 4294967296).toNat

/-- `dailyIndex` from src/app.js lines 56-65: mix the day number with the
language hash and reduce modulo the list length. (The source is only
invoked with a non-empty list; `pickWord` guards the empty case.) -/
def dailyIndex (words : List String) (lang : String) (nowMs : Int) : Nat :=
  lcgMix (dayNumber nowMs) (langHash lang.data) % words.length

/-- `pickWord` from src/app.js lines 69-75: empty list returns the sentinel
`""`; a manual override contained in the list wins; otherwise index by
`dailyIndex`. (`manualOverride` is the module variable of line 67,
`null` modelled as `none`.) -/
def pickWord (words : List String) (lang : String) (nowMs : Int)
    (manualOverride : Option String) : String :=
  if words.length = 0 then ""
  else if (match manualOverride with
           | some w => words.contains w
           | none => false) then
    manualOverride.getD ""
  else
    words.getD (dailyIndex words lang nowMs) ""

/-! ### Keyboard-hint aggregation (src/app.js lines 141-157) -/

/-- One status-map update of `computeStatuses` (src/app.js lines 148-153) for
letter `l` observed with status `st`: `correct` always wins, `present` wins
unless the letter is already `correct`, `absent` only fills an unset entry
(`if (!status[l])`). The map is `Char → Option Status`, `none` for a key
absent from the JS object. -/
def updateStatus (status : Char → Option Status) (l : Char) (st : Status) :
    Char → Option Status :=
  match st with
  | Status.correct => fun c => if c = l then some Status.correct else status c
  | Status.present =>
    if status l = some Status.correct then status
    else fun c => if c = l then some Status.present else status c
  | Status.absent =>
    match status l with
    | none => fun c => if c = l then some Status.absent else status c
    | some _ => status

/-- The inner loop of `computeStatuses` over one attempt `g` (src/app.js lines
145-154): positions run over `g.length`; when the evaluation array is
exhausted (`evalSt[i] = undefined`), the JS `else` branch applies, which is
the `absent` update. -/
def applyGuess : (Char → Option Status) → List Char → List Status →
    (Char → Option Status)
  | status, [], _ => status
  | status, l :: ls, [] => applyGuess (updateStatus status l Status.absent) ls []
  | status, l :: ls, st :: sts => applyGuess (updateStatus status l st) ls sts

/-- `computeStatuses` from src/app.js lines 141-157: fold every completed
attempt's evaluation into a best-known per-letter status map. -/
def computeStatuses (attempts : List (List Char)) (target : List Char) :
    Char → Option Status :=
  attempts.foldl (fun status g => applyGuess status g (evaluateGuess g target))
    (fun _ => none)

/-! ### Reference definitions taken from the specification's words

These are NOT translations of src/app.js; they render the prose of spec.md
§4.2 (the reference two-pass algorithm) and §4.3 (strongest-status
aggregation) so that the source translations above can be compared
against them. -/

/-- Spec §4.2 step 1: "Build a multiset (letter → remaining count) from
`target`." -/
def specCounts (target : List Char) : Char → Nat :=
  fun c => target.count c

/-- Spec §4.2 step 2, over the positions (pairs of guess and target letter):
"for each position where `guess[i] == target[i]`, mark `correct` and
decrement that letter's remaining count." Unmarked positions are left
`absent` pending step 3. -/
def specPass1 : List (Char × Char) → (Char → Nat) → List Status × (Char → Nat)
  | [], m => ([], m)
  | p :: ps, m =>
    if p.1 = p.2 then
      let rest := specPass1 ps (fun c => if c = p.1 then m c - 1 else m c)
      (Status.correct :: rest.1, rest.2)
    else
      let rest := specPass1 ps m
      (Status.absent :: rest.1, rest.2)

/-- Spec §4.2 step 3, over the step-2 statuses paired with the guess letters:
"skipping positions already marked `correct` ... if the guess letter's
remaining count in the multiset is `> 0`, mark `present` and decrement the
count; otherwise mark `absent`." -/
def specPass2 : List (Status × Char) → (Char → Nat) → List Status
  | [], _ => []
  | (Status.correct, _) :: ps, m => Status.correct :: specPass2 ps m
  | (_, g) :: ps, m =>
    if m g > 0 then
      Status.present :: specPass2 ps (fun c => if c = g then m c - 1 else m c)
    else
      Status.absent :: specPass2 ps m

/-- The full reference two-pass algorithm of spec §4.2, for a guess and
target of equal length (the spec's precondition). -/
def specTwoPass (guess target : List Char) : List Status :=
  let m := specCounts target
  let pass1 := specPass1 (guess.zip target) m
  specPass2 (pass1.1.zip guess) pass1.2

/-- Strength order on optional letter statuses used by spec §4.3:
`correct > present > absent`, and below all of them "never observed". -/
def statusRank : Option Status → Nat
  | none => 0
  | some Status.absent => 1
  | some Status.present => 2
  | some Status.correct => 3

/-- One aggregation step under the spec §4.3 order: keep whichever of the
current value and the new observation is stronger. -/
def hintStep (v : Option Status) (st : Status) : Option Status :=
  if statusRank v < statusRank (some st) then some st else v

/-- Spec §4.3: the strongest status in a list of observations, `none` when
nothing was observed. -/
def strongest (obs : List Status) : Option Status :=
  obs.foldl hintStep none

/-- The statuses observed for letter `c` in one attempt: for every position
of the guess holding `c`, the evaluation status at that position (`absent`
when the evaluation array has no entry there, matching the JS loop's
default branch on `undefined`). -/
def obsInGuess : List Char → List Status → Char → List Status
  | [], _, _ => []
  | l :: ls, [], c => (if l = c then [Status.absent] else []) ++ obsInGuess ls [] c
  | l :: ls, st :: sts, c => (if l = c then [st] else []) ++ obsInGuess ls sts c

/-- All statuses observed for letter `c` across an attempt history, each
attempt evaluated against `target`, in history order. -/
def observations : List (List Char) → List Char → Char → List Status
  | [], _, _ => []
  | g :: rest, target, c =>
    obsInGuess g (evaluateGuess g target) c ++ observations rest target c

/-! ### Auxiliary counting functions for the invariant claims -/

/-- The number of positions where guess and target hold the same letter and
that letter is `c`. -/
def matchCountFor : List Char → List Char → Char → Nat
  | [], _, _ => 0
  | _ :: _, [], _ => 0
  | gc :: gs, tc :: ts, c => (if gc = tc ∧ gc = c then 1 else 0) + matchCountFor gs ts c

/-- The number of positions whose guess letter is `c` and whose status is
`correct` or `present` (a "mark" for letter `c`). Positions past the end of
the guess carry no guess letter and are never counted. -/
def marksFor : List Status → List Char → Char → Nat
  | [], _, _ => 0
  | _ :: sts, [], c => marksFor sts [] c
  | st :: sts, g :: gs, c =>
    (if g = c ∧ (st = Status.correct ∨ st = Status.present) then 1 else 0) +
      marksFor sts gs c

/-- Relation between the source's `Int`-valued counts and the spec's
`Nat`-valued multiset: they agree wherever the spec count is positive, and
where the spec count has hit `0` the source count is `≤ 0` (the source may
drive a count negative where the spec's truncated decrement stays at `0`;
both fail the only test ever applied, `> 0`). -/
def countsRel (cz : Char → Int) (cn : Char → Nat) : Prop :=
  ∀ c, cz c = (cn c : Int) ∨ (cz c ≤ 0 ∧ cn c = 0)

/-! ## Structural lemmas about the two passes -/

theorem firstPass_fst_length (g t : List Char) (cz : Char → Int) :
    (firstPass g t cz).1.length = t.length := by
  induction g, t, cz using firstPass.induct <;> simp [firstPass, *]

theorem secondPass_length (r : List Status) (g : List Char) (cz : Char → Int) :
    (secondPass r g cz).length = r.length := by
  induction r, g, cz using secondPass.induct <;> simp [secondPass, *]

theorem evaluateGuess_length (guess target : List Char) :
    (evaluateGuess guess target).length = target.length := by
  unfold evaluateGuess
  rw [secondPass_length, firstPass_fst_length]

theorem firstPass_drop (g t : List Char) (cz : Char → Int) :
    (firstPass g t cz).1.drop g.length =
      List.replicate (t.length - g.length) Status.absent := by
  induction g, t, cz using firstPass.induct <;>
    simp_all [firstPass, List.replicate_succ, Nat.succ_sub_succ]

theorem secondPass_drop (r : List Status) (g : List Char) (cz : Char → Int) :
    (secondPass r g cz).drop g.length = r.drop g.length := by
  induction r, g, cz using secondPass.induct <;>
    simp_all [secondPass] <;> (split <;> (try simp_all) <;> omega)

theorem firstPass_take (g t : List Char) (cz : Char → Int) :
    firstPass g t cz = firstPass (g.take t.length) t cz := by
  induction g, t, cz using firstPass.induct <;> simp [firstPass, List.take_succ_cons, *]

theorem secondPass_take (r : List Status) (g : List Char) (cz : Char → Int) :
    secondPass r g cz = secondPass r (g.take r.length) cz := by
  induction r, g, cz using secondPass.induct <;>
    simp [secondPass, List.take_succ_cons, *]

/-! ## Counting lemmas -/

theorem buildCounts_aux (t : List Char) (m : Char → Int) (c : Char) :
    t.foldl (fun m ch => fun c => if c = ch then m c + 1 else m c) m c
      = m c + t.count c := by
  induction t generalizing m with
  | nil => simp
  | cons ch ts ih =>
    simp only [List.foldl_cons, ih, List.count_cons]
    by_cases h : c = ch
    · subst h
      simp
      omega
    · simp [h, Ne.symm h]

theorem buildCounts_apply (t : List Char) (c : Char) :
    buildCounts t c = (t.count c : Int) := by
  simpa using buildCounts_aux t (fun _ => 0) c

theorem firstPass_counts (g t : List Char) (cz : Char → Int) (c : Char) :
    (firstPass g t cz).2 c = cz c - matchCountFor g t c := by
  induction g, t, cz using firstPass.induct with
  | case1 g cz => cases g <;> simp [firstPass, matchCountFor]
  | case2 head ts cz ih => simp [firstPass, matchCountFor, ih]
  | case3 gs tc ts cz ih =>
    simp only [firstPass, matchCountFor, eq_self_iff_true, if_true, true_and]
    rw [ih]
    by_cases h : c = tc
    · subst h
      simp
      omega
    · simp [h, Ne.symm h]
  | case4 gc gs tc ts cz hne ih =>
    simp [firstPass, matchCountFor, hne, ih]

theorem matchCountFor_le (g t : List Char) (c : Char) :
    matchCountFor g t c ≤ t.count c := by
  induction g generalizing t with
  | nil => simp [matchCountFor]
  | cons gc gs ih =>
    cases t with
    | nil => simp [matchCountFor]
    | cons tc ts =>
      have h2 := ih ts
      simp only [matchCountFor, List.count_cons]
      by_cases h1 : gc = tc
      · subst h1
        by_cases hc : gc = c
        · subst hc
          simp
          omega
        · simp [hc, Ne.symm hc]
          omega
      · simp [h1]
        split <;> omega

theorem firstPass_marks (g t : List Char) (cz : Char → Int) (c : Char) :
    marksFor (firstPass g t cz).1 g c = matchCountFor g t c := by
  induction g, t, cz using firstPass.induct with
  | case1 g cz => cases g <;> simp [firstPass, marksFor, matchCountFor]
  | case2 head ts cz ih => simp [firstPass, marksFor, matchCountFor, ih]
  | case3 gs tc ts cz ih => simp [firstPass, marksFor, matchCountFor, ih]
  | case4 gc gs tc ts cz hne ih =>
    simp [firstPass, marksFor, matchCountFor, hne, ih]

theorem firstPass_count_correct (g t : List Char) (cz : Char → Int) :
    (firstPass g t cz).1.count Status.correct =
      ((g.zip t).filter (fun p => p.1 = p.2)).length := by
  induction g, t, cz using firstPass.induct with
  | case1 g cz => cases g <;> simp [firstPass]
  | case2 head ts cz ih => simp [firstPass, ih]
  | case3 gs tc ts cz ih => simp [firstPass, ih, List.count_cons]
  | case4 gc gs tc ts cz hne ih => simp [firstPass, hne, ih, List.count_cons]

theorem secondPass_count_correct (r : List Status) (g : List Char)
    (cz : Char → Int) :
    (secondPass r g cz).count Status.correct = r.count Status.correct := by
  induction r, g, cz using secondPass.induct <;>
    simp_all [secondPass, List.count_cons] <;>
      (split <;> (try simp_all [List.count_cons]) <;> omega)

theorem secondPass_marks_le (r : List Status) (g : List Char) (cz : Char → Int)
    (c : Char) :
    marksFor (secondPass r g cz) g c ≤ marksFor r g c + (cz c).toNat := by
  induction r, g, cz using secondPass.induct with
  | case1 g cz => simp [secondPass, marksFor]
  | case2 st sts counts ih =>
    simpa only [secondPass, marksFor] using ih
  | case3 sts head gs counts ih =>
    simp only [secondPass, marksFor]
    omega
  | case4 st sts gc gs counts hne hpos ih =>
    cases st with
    | correct => exact absurd rfl hne
    | present =>
      simp only [secondPass, if_pos hpos, marksFor] at ih ⊢
      by_cases hc : c = gc <;> simp [hc, eq_comm] at ih ⊢ <;> omega
    | absent =>
      simp only [secondPass, if_pos hpos, marksFor] at ih ⊢
      by_cases hc : c = gc <;> simp [hc, eq_comm] at ih ⊢ <;> omega
  | case5 st sts gc gs counts hne hpos ih =>
    cases st with
    | correct => exact absurd rfl hne
    | present =>
      simp only [secondPass, if_neg hpos, marksFor] at ih ⊢
      omega
    | absent =>
      simp only [secondPass, if_neg hpos, marksFor] at ih ⊢
      omega

theorem firstPass_statuses (g t : List Char) (cz : Char → Int) :
    ∀ s ∈ (firstPass g t cz).1, s = Status.correct ∨ s = Status.absent := by
  induction g, t, cz using firstPass.induct <;> simp_all [firstPass]

/-! ## Equivalence of the source passes with the spec's reference passes -/

theorem countsRel_dec {cz : Char → Int} {cn : Char → Nat} (h : countsRel cz cn)
    (x : Char) :
    countsRel (fun c => if c = x then cz c - 1 else cz c)
      (fun c => if c = x then cn c - 1 else cn c) := by
  intro c
  by_cases hc : c = x
  · subst hc
    rcases h c with h1 | h1 <;> simp <;> omega
  · simpa [hc] using h c

theorem countsRel_pos {cz : Char → Int} {cn : Char → Nat} (h : countsRel cz cn)
    (x : Char) : 0 < cz x ↔ 0 < cn x := by
  rcases h x with h1 | h1 <;> omega

theorem pass1_equiv (g : List Char) : ∀ (t : List Char) (cz : Char → Int)
    (cn : Char → Nat), g.length = t.length → countsRel cz cn →
    (firstPass g t cz).1 = (specPass1 (g.zip t) cn).1 ∧
      countsRel (firstPass g t cz).2 (specPass1 (g.zip t) cn).2 := by
  induction g with
  | nil =>
    intro t cz cn hlen h
    cases t with
    | nil => simpa [firstPass, specPass1] using h
    | cons tc ts => simp at hlen
  | cons gc gs ih =>
    intro t cz cn hlen h
    cases t with
    | nil => simp at hlen
    | cons tc ts =>
      simp only [List.length_cons] at hlen
      have hlen' : gs.length = ts.length := by omega
      by_cases hg : gc = tc
      · subst hg
        have hrec := ih ts _ _ hlen' (countsRel_dec h gc)
        simp only [firstPass, specPass1, List.zip_cons_cons, eq_self_iff_true,
          if_true]
        exact ⟨by rw [hrec.1]; rfl, hrec.2⟩
      · have hrec := ih ts cz cn hlen' h
        simp only [firstPass, specPass1, List.zip_cons_cons, hg, if_false]
        exact ⟨by rw [hrec.1]; rfl, hrec.2⟩

theorem pass2_equiv (r : List Status) : ∀ (g : List Char) (cz : Char → Int)
    (cn : Char → Nat), r.length = g.length →
    (∀ s ∈ r, s = Status.correct ∨ s = Status.absent) → countsRel cz cn →
    secondPass r g cz = specPass2 (r.zip g) cn := by
  induction r with
  | nil => intro g cz cn _ _ _; simp [secondPass, specPass2]
  | cons st sts ih =>
    intro g cz cn hlen hst h
    cases g with
    | nil => simp at hlen
    | cons gc gs =>
      simp only [List.length_cons] at hlen
      have hlen' : sts.length = gs.length := by omega
      have hsts : ∀ s ∈ sts, s = Status.correct ∨ s = Status.absent :=
        fun s hs => hst s (List.mem_cons_of_mem _ hs)
      have hsthd := hst st (List.mem_cons_self _ _)
      cases st with
      | correct =>
        simp only [secondPass, specPass2, List.zip_cons_cons]
        rw [ih gs cz cn hlen' hsts h]
        rfl
      | present => simp at hsthd
      | absent =>
        have hpos := countsRel_pos h gc
        by_cases hp : 0 < cz gc
        · have hp' : 0 < cn gc := hpos.mp hp
          simp only [secondPass, specPass2, List.zip_cons_cons, if_pos hp,
            if_pos hp']
          rw [ih gs _ _ hlen' hsts (countsRel_dec h gc)]
          rfl
        · have hp' : ¬0 < cn gc := fun hh => hp (hpos.mpr hh)
          simp only [secondPass, specPass2, List.zip_cons_cons, if_neg hp,
            if_neg hp']
          rw [ih gs cz cn hlen' hsts h]
          rfl

/-! ## Keyboard-hint aggregation lemmas -/

theorem updateStatus_apply (status : Char → Option Status) (l : Char)
    (st : Status) (c : Char) :
    updateStatus status l st c =
      if c = l then hintStep (status l) st else status c := by
  rcases hl : status l with _ | s <;> cases st <;>
    first
      | (cases s <;> by_cases hc : c = l <;>
          simp [updateStatus, hintStep, statusRank, hl, hc])
      | (by_cases hc : c = l <;>
          simp [updateStatus, hintStep, statusRank, hl, hc])

theorem applyGuess_apply (g : List Char) : ∀ (ev : List Status)
    (status : Char → Option Status) (c : Char),
    applyGuess status g ev c = (obsInGuess g ev c).foldl hintStep (status c) := by
  induction g with
  | nil => intro ev status c; simp [applyGuess, obsInGuess]
  | cons l ls ih =>
    intro ev status c
    cases ev with
    | nil =>
      simp only [applyGuess, obsInGuess]
      rw [ih]
      by_cases hc : l = c
      · subst hc
        simp [updateStatus_apply]
      · simp [hc, updateStatus_apply, Ne.symm hc]
    | cons st sts =>
      simp only [applyGuess, obsInGuess]
      rw [ih]
      by_cases hc : l = c
      · subst hc
        simp [updateStatus_apply]
      · simp [hc, updateStatus_apply, Ne.symm hc]

theorem computeStatuses_fold (attempts : List (List Char)) (target : List Char) :
    ∀ (status : Char → Option Status) (c : Char),
    (attempts.foldl (fun s g => applyGuess s g (evaluateGuess g target)) status) c
      = (observations attempts target c).foldl hintStep (status c) := by
  induction attempts with
  | nil => intro status c; simp [observations]
  | cons g rest ih =>
    intro status c
    simp only [List.foldl_cons, observations, List.foldl_append]
    rw [ih, applyGuess_apply]

/-! ## Daily-selection lemmas -/

theorem dayNumber_eq (nowMs : Int) :
    dayNumber nowMs = nowMs.fdiv 86400000 - epochDay := by
  unfold dayNumber epochDay
  rw [Int.fdiv_eq_ediv _ (by norm_num), Int.fdiv_eq_ediv _ (by norm_num)]
  have h : nowMs - 20089 * 86400000 = nowMs + -20089 * 86400000 := by ring
  rw [h, Int.add_mul_ediv_right _ _ (by norm_num : (86400000 : Int) ≠ 0)]
  ring

/-! ## Claim theorems -/

/-- C1: for every guess and target of equal length, `evaluateGuess` returns
exactly the result of the reference two-pass algorithm of spec §4.2
(`specTwoPass`): target letter multiset, correct-marking first pass,
present/absent second pass. -/
theorem evaluateGuess_eq_specTwoPass (guess target : List Char)
    (h : guess.length = target.length) :
    evaluateGuess guess target = specTwoPass guess target := by
  have hrel : countsRel (buildCounts target) (specCounts target) :=
    fun c => Or.inl (buildCounts_apply target c)
  obtain ⟨h1, h2⟩ :=
    pass1_equiv guess target (buildCounts target) (specCounts target) h hrel
  have hlen1 :
      (firstPass guess target (buildCounts target)).1.length = guess.length := by
    rw [firstPass_fst_length, h]
  show secondPass (firstPass guess target (buildCounts target)).1 guess
      (firstPass guess target (buildCounts target)).2
    = specPass2 ((specPass1 (guess.zip target) (specCounts target)).1.zip guess)
      (specPass1 (guess.zip target) (specCounts target)).2
  rw [pass2_equiv _ guess _ _ hlen1 (firstPass_statuses guess target _) h2, h1]

/-- Witness for C1 at guess "PAPAL", target "APPLE". -/
theorem evaluateGuess_eq_specTwoPass_witness :
    "PAPAL".data.length = "APPLE".data.length ∧
      evaluateGuess "PAPAL".data "APPLE".data =
        specTwoPass "PAPAL".data "APPLE".data :=
  ⟨by decide, evaluateGuess_eq_specTwoPass "PAPAL".data "APPLE".data (by decide)⟩

/-- C2: `evaluateGuess` with guess "PAPAL" and target "APPLE" returns exactly
[present, present, correct, absent, present]. -/
theorem evaluateGuess_papal_apple :
    evaluateGuessS "PAPAL" "APPLE" =
      [Status.present, Status.present, Status.correct, Status.absent,
        Status.present] := by
  decide

/-- C3: daily selection is deterministic: two timestamps with the same UTC
day (the same floor of milliseconds over 86400000) give the same index, for
every word list and language tag. -/
theorem dailyIndex_deterministic (words : List String) (lang : String)
    (now1 now2 : Int) (h : now1.fdiv 86400000 = now2.fdiv 86400000) :
    dailyIndex words lang now1 = dailyIndex words lang now2 := by
  unfold dailyIndex
  rw [dayNumber_eq, dayNumber_eq, h]

/-- Witness for C3: midnight and the last millisecond of the same UTC day. -/
theorem dailyIndex_deterministic_witness :
    (1735689600000 : Int).fdiv 86400000 = (1735775999999 : Int).fdiv 86400000 ∧
      dailyIndex ["ALPHA", "BRAVO"] "en" 1735689600000 =
        dailyIndex ["ALPHA", "BRAVO"] "en" 1735775999999 :=
  ⟨by decide, dailyIndex_deterministic ["ALPHA", "BRAVO"] "en" _ _ (by decide)⟩

/-- C4: for equal-length inputs, the number of `correct` statuses equals the
number of exactly-matching positions, and for each letter the number of
positions marked `correct` or `present` whose guess letter is that letter
never exceeds the letter's occurrence count in the target. -/
theorem evaluateGuess_invariants (guess target : List Char)
    (h : guess.length = target.length) :
    (evaluateGuess guess target).count Status.correct =
        ((guess.zip target).filter (fun p => p.1 = p.2)).length ∧
      ∀ c : Char,
        marksFor (evaluateGuess guess target) guess c ≤ target.count c := by
  constructor
  · show (secondPass (firstPass guess target (buildCounts target)).1 guess
        (firstPass guess target (buildCounts target)).2).count Status.correct = _
    rw [secondPass_count_correct, firstPass_count_correct]
  · intro c
    have hle := secondPass_marks_le (firstPass guess target (buildCounts target)).1
      guess (firstPass guess target (buildCounts target)).2 c
    have hm := firstPass_marks guess target (buildCounts target) c
    have hcnt := firstPass_counts guess target (buildCounts target) c
    have hb := buildCounts_apply target c
    have hmle := matchCountFor_le guess target c
    show marksFor (secondPass (firstPass guess target (buildCounts target)).1 guess
        (firstPass guess target (buildCounts target)).2) guess c ≤ target.count c
    omega

/-- Witness for C4 at guess "PAPAL", target "APPLE", letter P. -/
theorem evaluateGuess_invariants_witness :
    "PAPAL".data.length = "APPLE".data.length ∧
      (evaluateGuess "PAPAL".data "APPLE".data).count Status.correct =
        (("PAPAL".data.zip "APPLE".data).filter (fun p => p.1 = p.2)).length ∧
      marksFor (evaluateGuess "PAPAL".data "APPLE".data) "PAPAL".data 'P' ≤
        "APPLE".data.count 'P' :=
  ⟨by decide,
    (evaluateGuess_invariants "PAPAL".data "APPLE".data (by decide)).1,
    (evaluateGuess_invariants "PAPAL".data "APPLE".data (by decide)).2 'P'⟩

/-- C5 counterexample: with guess "LLAMA" and target "ALLOY" the claim "one of
the guess's two L positions (0 and 1) is marked present/correct and the other
absent" is false: neither L position is absent (the target holds two L's). -/
theorem evaluateGuess_llama_alloy_counterexample :
    ¬ (((evaluateGuessS "LLAMA" "ALLOY").get? 0 ≠ some Status.absent ∧
        (evaluateGuessS "LLAMA" "ALLOY").get? 1 = some Status.absent) ∨
       ((evaluateGuessS "LLAMA" "ALLOY").get? 1 ≠ some Status.absent ∧
        (evaluateGuessS "LLAMA" "ALLOY").get? 0 = some Status.absent)) := by
  decide

/-- C5 amended: guess "LLAMA" against target "ALLOY" evaluates to
[present, correct, present, absent, absent]: both L positions are marked
(the target holds two L's); the single target A gives exactly one of the two
guess A positions (2 and 4) a `present` mark, the other `absent`. -/
theorem evaluateGuess_llama_alloy :
    evaluateGuessS "LLAMA" "ALLOY" =
      [Status.present, Status.correct, Status.present, Status.absent,
        Status.absent] := by
  decide

/-- C6: with an empty word list, `pickWord` returns the explicit sentinel ""
(surfaced by `startGame` as "No words loaded") without ever indexing the
list, for every language, timestamp, and override. -/
theorem pickWord_empty_sentinel (lang : String) (nowMs : Int)
    (ov : Option String) : pickWord [] lang nowMs ov = "" := rfl

/-- C7 counterexample: `evaluateGuess` raises no error on a length mismatch;
on guess "AB" and target "ABC" it silently returns an ordinary result. -/
theorem evaluateGuess_mismatch_counterexample :
    "AB".data.length ≠ "ABC".data.length ∧
      evaluateGuessS "AB" "ABC" =
        [Status.correct, Status.correct, Status.absent] := by
  decide

/-- C7 amended: on mismatched lengths `evaluateGuess` does not fail; it
silently returns a status list of length `target.length`, the positions past
the guess's end filled with `absent` (the length precondition is enforced by
the caller `submitGuess`). -/
theorem evaluateGuess_mismatch_returns_result (guess target : List Char)
    (h : guess.length ≠ target.length) :
    (evaluateGuess guess target).length = target.length ∧
      (evaluateGuess guess target).drop guess.length =
        List.replicate (target.length - guess.length) Status.absent := by
  refine ⟨evaluateGuess_length guess target, ?_⟩
  show (secondPass (firstPass guess target (buildCounts target)).1 guess
      (firstPass guess target (buildCounts target)).2).drop guess.length = _
  rw [secondPass_drop, firstPass_drop]

/-- Witness for C7's amended statement at guess "AB", target "ABC". -/
theorem evaluateGuess_mismatch_returns_result_witness :
    "AB".data.length ≠ "ABC".data.length ∧
      ((evaluateGuess "AB".data "ABC".data).length = "ABC".data.length ∧
        (evaluateGuess "AB".data "ABC".data).drop "AB".data.length =
          List.replicate ("ABC".data.length - "AB".data.length) Status.absent) :=
  ⟨by decide,
    evaluateGuess_mismatch_returns_result "AB".data "ABC".data (by decide)⟩

/-- C8: for every non-empty word list, language tag, and timestamp, the daily
index lies in [0, words.length) (it is a `Nat`, so 0 ≤ index holds by type). -/
theorem dailyIndex_in_range (words : List String) (lang : String) (nowMs : Int)
    (h : words ≠ []) : dailyIndex words lang nowMs < words.length := by
  unfold dailyIndex
  exact Nat.mod_lt _ (List.length_pos.mpr h)

/-- Witness for C8 on a singleton list. -/
theorem dailyIndex_in_range_witness :
    (["ALPHA"] : List String) ≠ [] ∧
      dailyIndex ["ALPHA"] "en" 1735689600000 < (["ALPHA"] : List String).length :=
  ⟨by decide, dailyIndex_in_range ["ALPHA"] "en" 1735689600000 (by decide)⟩

/-- C9: the keyboard-hint map assigns every letter the strongest status the
attempt history ever observed for it, under correct > present > absent (and
no entry when never observed); being a pure function of the history, its
recomputation is idempotent. -/
theorem computeStatuses_strongest (attempts : List (List Char))
    (target : List Char) (c : Char) :
    computeStatuses attempts target c =
      strongest (observations attempts target c) :=
  computeStatuses_fold attempts target (fun _ => none) c

/-- C10: `evaluateGuess` is total with exactly `target.length` statuses for
every guess: positions past the guess's end are `absent`, and guess
characters past the target's length are ignored. -/
theorem evaluateGuess_total_shape (guess target : List Char) :
    (evaluateGuess guess target).length = target.length ∧
      (evaluateGuess guess target).drop guess.length =
        List.replicate (target.length - guess.length) Status.absent ∧
      evaluateGuess guess target = evaluateGuess (guess.take target.length) target := by
  refine ⟨evaluateGuess_length guess target, ?_, ?_⟩
  · show (secondPass (firstPass guess target (buildCounts target)).1 guess
        (firstPass guess target (buildCounts target)).2).drop guess.length = _
    rw [secondPass_drop, firstPass_drop]
  · show secondPass (firstPass guess target (buildCounts target)).1 guess
        (firstPass guess target (buildCounts target)).2
      = secondPass
          (firstPass (guess.take target.length) target (buildCounts target)).1
          (guess.take target.length)
          (firstPass (guess.take target.length) target (buildCounts target)).2
    rw [← firstPass_take]
    rw [secondPass_take (firstPass guess target (buildCounts target)).1 guess]
    rw [firstPass_fst_length]

end GuessMosaic
